import Mathlib

/-!
Verification of the daylio-markdown-export converter
(`src/daylio2markdown/__main__.py`) against its specification.

The Python source is shallowly embedded here:
* raw byte payloads are `List Nat`;
* Python `dict` maps keyed by integer ids are association lists with
  last-write-wins semantics (insert prepends, lookup takes the first hit);
* fallible code (`raise` / `KeyError` / `StopIteration`) is `Except`:
  the spec-level error names (`UnknownAssetTypeError`,
  `DanglingReferenceError`, `NotFoundError`) name the constructors of the
  error types below, abstracting the concrete Python exception classes;
* the filesystem is a map from path strings to byte contents, threaded
  explicitly through the export driver;
* external collaborators (jinja template rendering, libmagic content
  sniffing) are opaque function parameters of the export configuration.
-/

/-- Raw byte payloads (Python `bytes`). -/
abbrev Bytes := List Nat

/-- Constant `SUPPORTED_VERSION = 15` from the source. -/
def SUPPORTED_VERSION : Int := 15

/-- The `PREDEFINED_MOODS` dict: ids 1..5 map to the five fixed names. -/
def PREDEFINED_MOODS (i : Int) : Option String :=
  if i = 1 then some "rad"
  else if i = 2 then some "good"
  else if i = 3 then some "meh"
  else if i = 4 then some "bad"
  else if i = 5 then some "awful"
  else none

/-- Record `DaylioAssetFile`: a checksum together with the raw bytes loaded from
the archive.  Its `mimetype`/`filename` derived views depend on libmagic
content sniffing, which the export driver models as a parameter. -/
structure DaylioAssetFile where
  checksum : String
  data : Bytes
deriving DecidableEq, Repr

/-- Record `DaylioMood`. -/
structure DaylioMood where
  id : Int
  custom_name : String
  mood_group_id : Int
  predefined_name_id : Int
deriving DecidableEq, Repr

/-- The `mood_name` property: one of the five predefined names when
`predefined_name_id` is recognised, else the custom name. -/
def DaylioMood.mood_name (m : DaylioMood) : String :=
  match PREDEFINED_MOODS m.predefined_name_id with
  | some n => n
  | none => m.custom_name

/-- Record `DaylioTag`. -/
structure DaylioTag where
  id : Int
  name : String
deriving DecidableEq, Repr

/-- The `hashtag` property: spaces replaced by dashes, `#`-prefixed. -/
def DaylioTag.hashtag (t : DaylioTag) : String :=
  "#" ++ (t.name.replace " " "-")

/-- The `tag` property: spaces replaced by dashes, no prefix. -/
def DaylioTag.slug (t : DaylioTag) : String :=
  t.name.replace " " "-"

/-- Record `AndroidMetadata`; `orientation` and `duration` are read with
`dict.get` in the source and so may be absent. -/
structure AndroidMetadata where
  name : String
  last_modified : Int
  orientation : Option Int
  duration : Option Int
deriving DecidableEq, Repr

/-- Enum `DaylioAssetType`: `Photo = 1`, `Audio = 2`. -/
inductive DaylioAssetType where
  | Photo
  | Audio
deriving DecidableEq, Repr

/-- The numeric value of each asset type code. -/
def DaylioAssetType.value : DaylioAssetType → Int
  | .Photo => 1
  | .Audio => 2

/-- Record `DaylioAsset`.  The mutable `file` field of the Python class
(attached and detached during export) is transient state; the export
driver below models the attachment as a local binding, so decoded assets
carry `file = none` exactly as `__init__` sets `file=None`. -/
structure DaylioAsset where
  id : Int
  type : DaylioAssetType
  checksum : String
  created_at : Int
  created_at_offset : Int
  android_metadata : AndroidMetadata
  file : Option DaylioAssetFile
deriving DecidableEq, Repr

/-- Record `DaylioDayEntry`.  The Python field `timestamp` is a `datetime` built
from the de-duplicated millisecond epoch value divided by 1000 together
with a fixed zone from `timeZoneOffset`; we keep the two integers
(`epochtime` milliseconds, `timeZoneOffset` milliseconds), from which that
`datetime` is a derived view. -/
structure DayEntry where
  id : Int
  epochtime : Nat
  timeZoneOffset : Int
  mood : DaylioMood
  note_html : String
  note_title : String
  tags : List DaylioTag
  assets : List DaylioAsset
deriving DecidableEq, Repr

/-! ### Python dicts keyed by id -/

/-- A Python `dict` keyed by integer id: insert prepends, lookup returns
the most recent binding, i.e. last write wins. -/
abbrev IdMap (α : Type) : Type := List (Int × α)

/-- Dict lookup: first (most recent) binding for the key. -/
def alookup {α : Type} (m : IdMap α) (k : Int) : Option α :=
  match m with
  | [] => none
  | (k', v) :: rest => if k' = k then some v else alookup rest k

/-- Dict insert/overwrite. -/
def alinsert {α : Type} (m : IdMap α) (k : Int) (v : α) : IdMap α :=
  (k, v) :: m

/-! ### Source-side records

`DaylioJournal.__init__` receives base64-wrapped JSON; the claims under
verification all concern the structure-building pass after `json.loads`,
so the embedding starts from the parsed JSON record fields (the nested
`android_metadata` JSON string likewise appears already parsed). -/

/-- One record of the `tags` JSON array. -/
structure SrcTag where
  id : Int
  name : String
deriving DecidableEq, Repr

/-- One record of the `customMoods` JSON array. -/
structure SrcMood where
  id : Int
  custom_name : String
  mood_group_id : Int
  predefined_name_id : Int
deriving DecidableEq, Repr

/-- One record of the `assets` JSON array, with its nested
`android_metadata` JSON already parsed into fields. -/
structure SrcAsset where
  id : Int
  type : Int
  checksum : String
  createdAt : Int
  createdAtOffset : Int
  metaName : String
  metaLastModified : Int
  metaOrientation : Option Int
  metaDuration : Option Int
deriving DecidableEq, Repr

/-- One record of the `dayEntries` JSON array. -/
structure SrcDayEntry where
  id : Int
  datetime : Nat
  timeZoneOffset : Int
  mood : Int
  note : String
  note_title : String
  tags : List Int
  assets : List Int
deriving DecidableEq, Repr

/-- The parsed top-level JSON document of the `backup.daylio` member. -/
structure SrcJournal where
  version : Int
  tags : List SrcTag
  customMoods : List SrcMood
  assets : List SrcAsset
  dayEntries : List SrcDayEntry
deriving DecidableEq, Repr

/-- Decode-time failures of `DaylioJournal.__init__`: the bare
`raise Exception("Unknown asset type ...")` and the `KeyError` a dangling
mood/tag/asset id raises; the spec names them `UnknownAssetTypeError` and
`DanglingReferenceError`. -/
inductive DecodeError where
  | unknownAssetType (code : Int)
  | danglingReference
deriving DecidableEq, Repr

/-! ### Timestamp de-duplication

`__init__` keeps `seen_entry_timestamps` and runs
`while epochtime in seen: epochtime += 1`.  `nextFree` is that loop; the
structural variant erases the hit before recursing, which leaves every
later membership test unchanged because the probed values strictly
increase, and gives the recursion a decreasing measure. -/

/-- One step of the collision loop per unit of fuel.  Each recursive
step erases the hit before probing `t + 1`; since the probed values
strictly increase, erasing the current hit changes no later membership
test, and it makes the list shrink, so `seen.length + 1` fuel always
reaches the else-branch. -/
def nextFreeFuel : Nat → List Nat → Nat → Nat
  | 0, _, t => t
  | fuel + 1, seen, t =>
    if t ∈ seen then nextFreeFuel fuel (seen.erase t) (t + 1) else t

/-- The collision loop `while epochtime in seen: epochtime += 1`:
smallest value `≥ t` not in `seen`. -/
def nextFree (seen : List Nat) (t : Nat) : Nat :=
  nextFreeFuel (seen.length + 1) seen t

theorem nextFreeFuel_ge (fuel : Nat) (seen : List Nat) (t : Nat) :
    t ≤ nextFreeFuel fuel seen t := by
  induction fuel generalizing seen t with
  | zero => exact Nat.le_refl t
  | succ fuel ih =>
    by_cases h : t ∈ seen
    · simp only [nextFreeFuel, if_pos h]
      exact Nat.le_trans (Nat.le_succ t) (ih _ _)
    · simp only [nextFreeFuel, if_neg h]
      exact Nat.le_refl t

theorem nextFreeFuel_not_mem (fuel : Nat) (seen : List Nat) (t : Nat)
    (hfuel : seen.length < fuel) : nextFreeFuel fuel seen t ∉ seen := by
  induction fuel generalizing seen t with
  | zero => omega
  | succ fuel ih =>
    by_cases h : t ∈ seen
    · simp only [nextFreeFuel, if_pos h]
      have hlen : (seen.erase t).length < fuel := by
        rw [List.length_erase_of_mem h]
        have := List.length_pos.mpr (List.ne_nil_of_mem h)
        omega
      have hnm := ih (seen.erase t) (t + 1) hlen
      have hge := nextFreeFuel_ge fuel (seen.erase t) (t + 1)
      intro hmem
      exact hnm ((List.mem_erase_of_ne (by omega)).mpr hmem)
    · simp only [nextFreeFuel, if_neg h]
      exact h

theorem nextFreeFuel_minimal (fuel : Nat) (seen : List Nat) (t : Nat) :
    ∀ u, t ≤ u → u < nextFreeFuel fuel seen t → u ∈ seen := by
  induction fuel generalizing seen t with
  | zero => intro u hu hlt; simp only [nextFreeFuel] at hlt; omega
  | succ fuel ih =>
    by_cases h : t ∈ seen
    · simp only [nextFreeFuel, if_pos h]
      intro u hu hlt
      rcases Nat.eq_or_lt_of_le hu with heq | hgt
      · exact heq ▸ h
      · exact List.mem_of_mem_erase (ih (seen.erase t) (t + 1) u hgt hlt)
    · simp only [nextFreeFuel, if_neg h]
      intro u hu hlt
      omega

theorem nextFree_ge (seen : List Nat) (t : Nat) : t ≤ nextFree seen t :=
  nextFreeFuel_ge _ _ _

theorem nextFree_not_mem (seen : List Nat) (t : Nat) : nextFree seen t ∉ seen :=
  nextFreeFuel_not_mem _ _ _ (Nat.lt_succ_self _)

theorem nextFree_minimal (seen : List Nat) (t : Nat) :
    ∀ u, t ≤ u → u < nextFree seen t → u ∈ seen :=
  nextFreeFuel_minimal _ _ _

theorem nextFree_of_not_mem (seen : List Nat) (t : Nat) (h : t ∉ seen) :
    nextFree seen t = t := by
  simp [nextFree, nextFreeFuel, h]

/-- The function `nextFree` depends on `seen` only through membership. -/
theorem nextFree_congr (s₁ s₂ : List Nat) (hmem : ∀ x, x ∈ s₁ ↔ x ∈ s₂) (t : Nat) :
    nextFree s₁ t = nextFree s₂ t := by
  rcases Nat.lt_trichotomy (nextFree s₁ t) (nextFree s₂ t) with hlt | heq | hgt
  · have h1 := nextFree_not_mem s₁ t
    have h2 := nextFree_minimal s₂ t (nextFree s₁ t) (nextFree_ge s₁ t) hlt
    exact absurd ((hmem _).mpr h2) h1
  · exact heq
  · have h2 := nextFree_not_mem s₂ t
    have h1 := nextFree_minimal s₁ t (nextFree s₂ t) (nextFree_ge s₂ t) hgt
    exact absurd ((hmem _).mp h1) h2

/-- The effective timestamps the de-duplication loop assigns to a list of
raw `datetime` values, given previously seen values, in source order. -/
def dedupAux (seen : List Nat) : List Nat → List Nat
  | [] => []
  | t :: ts =>
    let e := nextFree seen t
    e :: dedupAux (e :: seen) ts

/-- Effective timestamps for a whole journal: the seen-set starts empty. -/
def dedupTimestamps (ts : List Nat) : List Nat :=
  dedupAux [] ts

theorem dedupAux_length (seen : List Nat) (ts : List Nat) :
    (dedupAux seen ts).length = ts.length := by
  induction ts generalizing seen with
  | nil => rfl
  | cons t ts ih => simp [dedupAux, ih]

theorem dedupAux_not_mem_seen (seen : List Nat) (ts : List Nat) :
    ∀ e ∈ dedupAux seen ts, e ∉ seen := by
  induction ts generalizing seen with
  | nil => intro e he; simp [dedupAux] at he
  | cons t ts ih =>
    intro e he
    simp only [dedupAux, List.mem_cons] at he
    rcases he with rfl | he
    · exact nextFree_not_mem seen t
    · intro hmem
      exact ih (nextFree seen t :: seen) e he (List.mem_cons_of_mem _ hmem)

theorem dedupAux_nodup (seen : List Nat) (ts : List Nat) :
    (dedupAux seen ts).Nodup := by
  induction ts generalizing seen with
  | nil => exact List.nodup_nil
  | cons t ts ih =>
    simp only [dedupAux, List.nodup_cons]
    refine ⟨fun hmem => ?_, ih _⟩
    exact dedupAux_not_mem_seen (nextFree seen t :: seen) ts _ hmem
      (List.mem_cons_self _ _)

/-- Positional characterisation: the `i`-th effective timestamp is the
collision loop applied to the `i`-th raw value with the seen-set holding
the earlier effective timestamps and the initial seen values. -/
theorem dedupAux_getD (seen : List Nat) (ts : List Nat) (i : Nat) (hi : i < ts.length) :
    (dedupAux seen ts).getD i 0 =
      nextFree ((dedupAux seen ts).take i ++ seen) (ts.getD i 0) := by
  induction ts generalizing seen i with
  | nil => simp at hi
  | cons t ts ih =>
    cases i with
    | zero => simp [dedupAux]
    | succ i =>
      have hi' : i < ts.length := by simpa using hi
      simp only [dedupAux, List.getD_cons_succ, List.take_succ_cons]
      rw [ih (nextFree seen t :: seen) i hi']
      refine nextFree_congr _ _ (fun x => ?_) _
      simp only [List.mem_append, List.mem_cons]
      tauto

theorem dedupTimestamps_getD (ts : List Nat) (i : Nat) (hi : i < ts.length) :
    (dedupTimestamps ts).getD i 0 =
      nextFree ((dedupTimestamps ts).take i) (ts.getD i 0) := by
  have h := dedupAux_getD [] ts i hi
  simpa [dedupTimestamps] using h

/-! ### Journal decoding (`DaylioJournal.__init__`) -/

/-- The tag-map pass: `self.tags[tag['id']] = DaylioTag(...)`. -/
def buildTags (ts : List SrcTag) : IdMap DaylioTag :=
  ts.foldl (fun m t => alinsert m t.id ⟨t.id, t.name⟩) []

/-- The mood-map pass: `self.custom_moods[mood['id']] = DaylioMood(...)`. -/
def buildMoods (ms : List SrcMood) : IdMap DaylioMood :=
  ms.foldl
    (fun m mo => alinsert m mo.id ⟨mo.id, mo.custom_name, mo.mood_group_id, mo.predefined_name_id⟩)
    []

/-- Decoding one asset record: the source compares `asset['type']` against
`Audio.value` first, then `Photo.value`, and raises on anything else. -/
def decodeAsset (a : SrcAsset) : Except DecodeError DaylioAsset :=
  if a.type = DaylioAssetType.Audio.value then
    .ok ⟨a.id, .Audio, a.checksum, a.createdAt, a.createdAtOffset,
      ⟨a.metaName, a.metaLastModified, a.metaOrientation, a.metaDuration⟩, none⟩
  else if a.type = DaylioAssetType.Photo.value then
    .ok ⟨a.id, .Photo, a.checksum, a.createdAt, a.createdAtOffset,
      ⟨a.metaName, a.metaLastModified, a.metaOrientation, a.metaDuration⟩, none⟩
  else
    .error (.unknownAssetType a.type)

/-- The asset-map loop body, threading the dict left-to-right. -/
def buildAssetsAux (m : IdMap DaylioAsset) :
    List SrcAsset → Except DecodeError (IdMap DaylioAsset)
  | [] => .ok m
  | a :: rest =>
    match decodeAsset a with
    | .error e => .error e
    | .ok da => buildAssetsAux (alinsert m a.id da) rest

/-- The asset-map pass: `self.assets[asset['id']] = DaylioAsset(...)`,
aborting at the first unknown type code. -/
def buildAssets (as : List SrcAsset) : Except DecodeError (IdMap DaylioAsset) :=
  buildAssetsAux [] as

/-- Resolving a list of referenced ids through a dict, as the source's
list comprehensions `[self.tags[tag_id] for tag_id in ...]` do: the first
absent id raises (`KeyError`, spec name `DanglingReferenceError`). -/
def resolveList {α : Type} (m : IdMap α) : List Int → Except DecodeError (List α)
  | [] => .ok []
  | i :: is =>
    match alookup m i with
    | none => .error .danglingReference
    | some v =>
      match resolveList m is with
      | .error e => .error e
      | .ok vs => .ok (v :: vs)

/-- Building one `DaylioDayEntry` from a source record, with `t` the
already de-duplicated effective millisecond timestamp: resolves the
`mood`, `tags` and `assets` ids through the maps built earlier; any
absent id fails the decode (`DanglingReferenceError`). -/
def decodeEntry (moods : IdMap DaylioMood) (tags : IdMap DaylioTag)
    (assets : IdMap DaylioAsset) (t : Nat) (e : SrcDayEntry) :
    Except DecodeError DayEntry :=
  match alookup moods e.mood with
  | none => .error .danglingReference
  | some mood =>
    match resolveList tags e.tags with
    | .error err => .error err
    | .ok tgs =>
      match resolveList assets e.assets with
      | .error err => .error err
      | .ok asts =>
        .ok ⟨e.id, t, e.timeZoneOffset, mood, e.note, e.note_title, tgs, asts⟩

/-- The day-entry loop: threads `seen_entry_timestamps`, bumps each raw
`datetime` with the collision loop, and appends decoded entries in
source array order. -/
def decodeEntries (moods : IdMap DaylioMood) (tags : IdMap DaylioTag)
    (assets : IdMap DaylioAsset) (seen : List Nat) :
    List SrcDayEntry → Except DecodeError (List DayEntry)
  | [] => .ok []
  | e :: rest =>
    let t := nextFree seen e.datetime
    match decodeEntry moods tags assets t e with
    | .error err => .error err
    | .ok de =>
      match decodeEntries moods tags assets (t :: seen) rest with
      | .error err => .error err
      | .ok more => .ok (de :: more)

/-- The decoded `DaylioJournal`. -/
structure DaylioJournal where
  version : Int
  custom_moods : IdMap DaylioMood
  day_entries : List DayEntry
  tags : IdMap DaylioTag
  assets : IdMap DaylioAsset
deriving DecidableEq, Repr

/-- Decoder `DaylioJournal.__init__` after `json.loads`: build the tag, mood and
asset maps, then decode the day entries with timestamp de-duplication. -/
def decodeJournal (src : SrcJournal) : Except DecodeError DaylioJournal :=
  let tags := buildTags src.tags
  let moods := buildMoods src.customMoods
  match buildAssets src.assets with
  | .error e => .error e
  | .ok assets =>
    match decodeEntries moods tags assets [] src.dayEntries with
    | .error e => .error e
    | .ok entries => .ok ⟨src.version, moods, entries, tags, assets⟩

/-! ### Archive reader (`DaylioJournalBackup`) -/

/-- One member of the opened zip archive: its name and its (decompressed)
content. -/
structure ZipMember where
  name : String
  data : Bytes
deriving DecidableEq, Repr

/-- Failure of `load_asset`: `next` on an empty filtered sequence raises
(`StopIteration`), named `NotFoundError` by the spec. -/
inductive ArchiveError where
  | notFound
deriving DecidableEq, Repr

/-- Python's `str.endswith`, phrased over the character lists. -/
def strEndsWith (s suffix : String) : Bool :=
  suffix.data.isSuffixOf s.data

/-- Lookup `DaylioJournalBackup.load_asset`:
`next(filter(lambda x: x.endswith(checksum), self.files))`, then read the
member's full content into a `DaylioAssetFile`. -/
def load_asset (members : List ZipMember) (checksum : String) :
    Except ArchiveError DaylioAssetFile :=
  match members.find? (fun m => strEndsWith m.name checksum) with
  | some m => .ok ⟨checksum, m.data⟩
  | none => .error .notFound

/-! ### Filesystem model and the idempotent write primitive -/

/-- A directory-tree snapshot: association list from path to content;
earlier bindings shadow later ones. -/
abbrev FS : Type := List (String × Bytes)

/-- Python `os.path.exists` / reading a file: the current content at a path. -/
def fsGet (fs : FS) (path : String) : Option Bytes :=
  match fs with
  | [] => none
  | (p, b) :: rest => if p = path then some b else fsGet rest path

/-- Python `open(path, 'wb').write(bytes)`: bind the path to fresh content. -/
def fsSet (fs : FS) (path : String) (b : Bytes) : FS :=
  (path, b) :: fs

/-- Function `write_file_if_unchanged(path, bytes)`: if the path exists with
byte-identical content, write nothing and return `False`; otherwise write
the full content and return `True`.  The filesystem is threaded
explicitly: the result pairs the returned bool with the new snapshot. -/
def write_file_if_unchanged (fs : FS) (path : String) (b : Bytes) : Bool × FS :=
  match fsGet fs path with
  | some existing =>
    if existing = b then (false, fs)
    else (true, fsSet fs path b)
  | none => (true, fsSet fs path b)

theorem fsGet_fsSet_same (fs : FS) (path : String) (b : Bytes) :
    fsGet (fsSet fs path b) path = some b := by
  simp [fsGet, fsSet]

theorem fsGet_fsSet_other (fs : FS) (path q : String) (b : Bytes) (h : path ≠ q) :
    fsGet (fsSet fs path b) q = fsGet fs q := by
  simp [fsGet, fsSet, h]

/-! ### Export driver (the loop body of `main`) -/

/-- The export driver's inputs: the opened archive, the two output
directories, the CLI flags, and the two external collaborators —
`render` (the jinja template producing the UTF-8 encoded Markdown) and
`sniffExt` (libmagic content sniffing plus `mimetypes.guess_extension`,
giving the extension appended to the checksum). -/
structure ExportConfig where
  archive : List ZipMember
  markdown : String
  images : String
  overwrite : Bool
  skip_empty : Bool
  render : DayEntry → Bytes
  sniffExt : Bytes → String

/-- The five running counters `main` accumulates and prints in its final
summary. -/
structure Counters where
  skipped_existing_asset : Nat
  skipped_existing_note : Nat
  skipped_empty : Nat
  exported_note : Nat
  exported_asset : Nat
deriving DecidableEq, Repr

/-- The driver state: the counters plus the two output directory trees. -/
structure ExportState where
  counters : Counters
  noteFS : FS
  assetFS : FS
deriving DecidableEq, Repr

/-- Property `DaylioAssetFile.filename`: checksum plus extension for the sniffed
content type. -/
def assetFilename (cfg : ExportConfig) (f : DaylioAssetFile) : String :=
  f.checksum ++ cfg.sniffExt f.data

/-- The note path `os.path.join(markdown, filename)`, where the filename
is derived deterministically from the entry's date and full timestamp;
both come from `epochtime`, our view of the entry's `timestamp`. -/
def notePath (cfg : ExportConfig) (e : DayEntry) : String :=
  cfg.markdown ++ "/" ++ toString e.epochtime ++ ".md"

/-- One iteration of the per-entry asset loop in `main`: load the bytes
from the archive, skip if the destination exists and overwrite was not
requested, otherwise hand the bytes to `write_file_if_unchanged` and
count the outcome. -/
def processAsset (cfg : ExportConfig) (st : ExportState) (checksum : String) :
    Except ArchiveError ExportState :=
  match load_asset cfg.archive checksum with
  | .error e => .error e
  | .ok file =>
    let asset_path := cfg.images ++ "/" ++ assetFilename cfg file
    if (fsGet st.assetFS asset_path).isSome && !cfg.overwrite then
      .ok { st with counters :=
        { st.counters with
          skipped_existing_asset := st.counters.skipped_existing_asset + 1 } }
    else
      match write_file_if_unchanged st.assetFS asset_path file.data with
      | (written, fs') =>
        if written then
          .ok { st with assetFS := fs', counters :=
            { st.counters with exported_asset := st.counters.exported_asset + 1 } }
        else
          .ok { st with assetFS := fs', counters :=
            { st.counters with
              skipped_existing_asset := st.counters.skipped_existing_asset + 1 } }

/-- The whole asset loop, over the entry's assets in order. -/
def processAssets (cfg : ExportConfig) (st : ExportState) :
    List DaylioAsset → Except ArchiveError ExportState
  | [] => .ok st
  | a :: rest =>
    match processAsset cfg st a.checksum with
    | .error e => .error e
    | .ok st' => processAssets cfg st' rest

/-- Rendering the entry and writing the note with
`write_file_if_unchanged`, counting the outcome. -/
def writeNote (cfg : ExportConfig) (st : ExportState) (e : DayEntry) : ExportState :=
  match write_file_if_unchanged st.noteFS (notePath cfg e) (cfg.render e) with
  | (written, fs') =>
    if written then
      { st with noteFS := fs', counters :=
        { st.counters with exported_note := st.counters.exported_note + 1 } }
    else
      { st with noteFS := fs', counters :=
        { st.counters with
          skipped_existing_note := st.counters.skipped_existing_note + 1 } }

/-- The `skip_empty` test of `main`: Python falsiness of `note_html`,
`note_title` and the `assets` list. -/
def entryEmpty (e : DayEntry) : Bool :=
  e.note_html == "" && e.note_title == "" && e.assets.isEmpty

/-- The export path of one entry: process its assets, then render and
write its note (in this order, as in the source). -/
def exportEntry (cfg : ExportConfig) (st : ExportState) (e : DayEntry) :
    Except ArchiveError ExportState :=
  match processAssets cfg st e.assets with
  | .error err => .error err
  | .ok st' => .ok (writeNote cfg st' e)

/-- The full loop body of `main` for one day entry: the two skip checks
in source order (existing note without `--overwrite` first, then
`--skip-empty`), falling through to the export path. -/
def processEntry (cfg : ExportConfig) (st : ExportState) (e : DayEntry) :
    Except ArchiveError ExportState :=
  if (fsGet st.noteFS (notePath cfg e)).isSome && !cfg.overwrite then
    .ok { st with counters :=
      { st.counters with
        skipped_existing_note := st.counters.skipped_existing_note + 1 } }
  else if cfg.skip_empty && entryEmpty e then
    .ok { st with counters :=
      { st.counters with skipped_empty := st.counters.skipped_empty + 1 } }
  else
    exportEntry cfg st e

/-- The whole export run over the decoded entries, in order. -/
def runExport (cfg : ExportConfig) (st : ExportState) :
    List DayEntry → Except ArchiveError ExportState
  | [] => .ok st
  | e :: rest =>
    match processEntry cfg st e with
    | .error err => .error err
    | .ok st' => runExport cfg st' rest

/-! ### Decode lemmas -/

theorem decodeEntry_ok_fields {moods : IdMap DaylioMood} {tags : IdMap DaylioTag}
    {assets : IdMap DaylioAsset} {t : Nat} {e : SrcDayEntry} {d : DayEntry}
    (h : decodeEntry moods tags assets t e = .ok d) :
    d.epochtime = t ∧ d.id = e.id := by
  unfold decodeEntry at h
  split at h
  · cases h
  · split at h
    · cases h
    · split at h
      · cases h
      · injection h with h
        subst h
        exact ⟨rfl, rfl⟩

theorem decodeEntries_maps {moods : IdMap DaylioMood} {tags : IdMap DaylioTag}
    {assets : IdMap DaylioAsset} (seen : List Nat) (es : List SrcDayEntry)
    (ds : List DayEntry)
    (h : decodeEntries moods tags assets seen es = .ok ds) :
    ds.map (fun d => d.epochtime) = dedupAux seen (es.map (fun e => e.datetime)) ∧
    ds.map (fun d => d.id) = es.map (fun e => e.id) := by
  induction es generalizing seen ds with
  | nil =>
    unfold decodeEntries at h
    injection h with h
    subst h
    simp [dedupAux]
  | cons e rest ih =>
    cases hde : decodeEntry moods tags assets (nextFree seen e.datetime) e with
    | error err =>
      rw [decodeEntries, hde] at h
      cases h
    | ok de =>
      cases hrest : decodeEntries moods tags assets (nextFree seen e.datetime :: seen) rest with
      | error err =>
        rw [decodeEntries, hde, hrest] at h
        cases h
      | ok more =>
        rw [decodeEntries, hde, hrest] at h
        injection h with h
        subst h
        obtain ⟨h1, h2⟩ := ih _ _ hrest
        obtain ⟨hep, hid⟩ := decodeEntry_ok_fields hde
        simp [dedupAux, h1, h2, hep, hid]

/-- If decoding succeeds, the entries' effective timestamps are exactly
the de-duplicated raw `datetime` values and the entry ids come out in
source array order. -/
theorem decodeJournal_entries (src : SrcJournal) (j : DaylioJournal)
    (h : decodeJournal src = Except.ok j) :
    j.day_entries.map (fun d => d.epochtime) =
      dedupTimestamps (src.dayEntries.map (fun e => e.datetime)) ∧
    j.day_entries.map (fun d => d.id) = src.dayEntries.map (fun e => e.id) := by
  simp only [decodeJournal] at h
  cases hA : buildAssets src.assets with
  | error err => rw [hA] at h; cases h
  | ok assets =>
    rw [hA] at h
    dsimp only at h
    cases hE : decodeEntries (buildMoods src.customMoods) (buildTags src.tags) assets []
        src.dayEntries with
    | error err => rw [hE] at h; cases h
    | ok entries =>
      rw [hE] at h
      injection h with h
      subst h
      exact decodeEntries_maps [] src.dayEntries entries hE

/-! ### A concrete journal with a timestamp collision -/

/-- A source journal with one mood and two entries both carrying raw
`datetime` 1700000000000. -/
def exSrc : SrcJournal :=
  ⟨15, [], [⟨1, "one", 1, 1⟩], [],
    [⟨1, 1700000000000, 0, 1, "note one", "", [], []⟩,
     ⟨2, 1700000000000, 0, 1, "note two", "", [], []⟩]⟩

/-- The decoded journal of `exSrc`. -/
def exJournal : DaylioJournal :=
  match decodeJournal exSrc with
  | .ok j => j
  | .error _ => ⟨0, [], [], [], []⟩

/-! ### Claim theorems: decoding -/

/-- C1: for every journal decoded by `DaylioJournal.__init__`, the
effective timestamps of all day entries are pairwise distinct, even when
two or more source entries carry the same raw millisecond `datetime`
value. -/
theorem decode_effective_timestamps_distinct (src : SrcJournal) (j : DaylioJournal)
    (h : decodeJournal src = Except.ok j) :
    (j.day_entries.map (fun d => d.epochtime)).Nodup := by
  rw [(decodeJournal_entries src j h).1]
  exact dedupAux_nodup _ _

/-- Witness for C1 at a concrete journal whose two entries collide on raw
timestamp 1700000000000. -/
theorem decode_effective_timestamps_distinct_witness :
    (exJournal.day_entries.map (fun d => d.epochtime)).Nodup :=
  decode_effective_timestamps_distinct exSrc exJournal rfl

/-- C2: timestamp de-duplication is order-preserving and minimal.  The
decoded entries correspond positionally to the source array (same length,
ids in source order); an entry whose raw millisecond timestamp is not
among the effective timestamps already assigned to earlier entries keeps
its raw value exactly; a colliding entry receives the smallest
millisecond value greater than its raw value not already assigned; and
the two colliding entries of `exSrc` (both raw 1700000000000) decode to
1700000000000 and 1700000000001 in original order. -/
theorem dedup_order_preserving_minimal (src : SrcJournal) (j : DaylioJournal)
    (h : decodeJournal src = Except.ok j) (i : Nat)
    (hi : i < src.dayEntries.length) :
    j.day_entries.length = src.dayEntries.length ∧
    j.day_entries.map (fun d => d.id) = src.dayEntries.map (fun e => e.id) ∧
    ((src.dayEntries.map (fun e => e.datetime)).getD i 0 ∉
        (j.day_entries.map (fun d => d.epochtime)).take i →
      (j.day_entries.map (fun d => d.epochtime)).getD i 0 =
        (src.dayEntries.map (fun e => e.datetime)).getD i 0) ∧
    ((src.dayEntries.map (fun e => e.datetime)).getD i 0 ∈
        (j.day_entries.map (fun d => d.epochtime)).take i →
      (src.dayEntries.map (fun e => e.datetime)).getD i 0 <
          (j.day_entries.map (fun d => d.epochtime)).getD i 0 ∧
        (j.day_entries.map (fun d => d.epochtime)).getD i 0 ∉
          (j.day_entries.map (fun d => d.epochtime)).take i ∧
        ∀ u, (src.dayEntries.map (fun e => e.datetime)).getD i 0 < u →
          u < (j.day_entries.map (fun d => d.epochtime)).getD i 0 →
          u ∈ (j.day_entries.map (fun d => d.epochtime)).take i) ∧
    exJournal.day_entries.map (fun d => d.epochtime) =
      [1700000000000, 1700000000001] := by
  have heff := (decodeJournal_entries src j h).1
  have hid := (decodeJournal_entries src j h).2
  have hi' : i < (src.dayEntries.map (fun e => e.datetime)).length := by
    simpa using hi
  have hlen : j.day_entries.length = src.dayEntries.length := by
    have := congrArg List.length heff
    simp only [List.length_map, dedupTimestamps, dedupAux_length] at this
    simpa using this
  refine ⟨hlen, hid, ?_, ?_, rfl⟩
  · intro hnm
    rw [heff, dedupTimestamps_getD _ i hi']
    rw [heff] at hnm
    exact nextFree_of_not_mem _ _ hnm
  · intro hm
    rw [heff] at hm ⊢
    rw [dedupTimestamps_getD _ i hi']
    have hge := nextFree_ge ((dedupTimestamps (src.dayEntries.map fun e => e.datetime)).take i)
      ((src.dayEntries.map fun e => e.datetime).getD i 0)
    have hnm := nextFree_not_mem ((dedupTimestamps (src.dayEntries.map fun e => e.datetime)).take i)
      ((src.dayEntries.map fun e => e.datetime).getD i 0)
    refine ⟨?_, hnm, ?_⟩
    · rcases Nat.eq_or_lt_of_le hge with heq | hlt
      · exact absurd (heq ▸ hm) hnm
      · exact hlt
    · intro u h1 h2
      exact nextFree_minimal _ _ u (Nat.le_of_lt h1) h2

/-- Witness for C2: the length component at the colliding concrete
journal, index 1. -/
theorem dedup_order_preserving_minimal_witness :
    exJournal.day_entries.length = exSrc.dayEntries.length :=
  (dedup_order_preserving_minimal exSrc exJournal rfl 1 (by decide)).1

/-! ### Claim theorems: the idempotent write primitive -/

/-- After any call, the path holds the candidate bytes. -/
theorem write_file_if_unchanged_get (fs : FS) (path : String) (b : Bytes) :
    fsGet (write_file_if_unchanged fs path b).2 path = some b := by
  unfold write_file_if_unchanged
  cases h : fsGet fs path with
  | none => simpa using fsGet_fsSet_same fs path b
  | some e =>
    by_cases heb : e = b
    · subst heb
      simpa using h
    · simpa [heb] using fsGet_fsSet_same fs path b

/-- A repeated call with the same path and bytes no-ops. -/
theorem write_file_if_unchanged_idem (fs : FS) (path : String) (b : Bytes) :
    write_file_if_unchanged (write_file_if_unchanged fs path b).2 path b =
      (false, (write_file_if_unchanged fs path b).2) := by
  have hb := write_file_if_unchanged_get fs path b
  generalize (write_file_if_unchanged fs path b).2 = fs2 at hb ⊢
  simp [write_file_if_unchanged, hb]

/-- C3: `write_file_if_unchanged` returns true and writes the full
content when no file exists at the path or the existing content differs
byte-for-byte; when the existing content is byte-identical it performs no
write and returns false; and it is idempotent — an immediately repeated
call with the same path and bytes performs no write and returns false. -/
theorem write_file_if_unchanged_spec (fs : FS) (path : String) (b : Bytes) :
    (fsGet fs path = none →
      write_file_if_unchanged fs path b = (true, fsSet fs path b)) ∧
    (∀ e, fsGet fs path = some e → e ≠ b →
      write_file_if_unchanged fs path b = (true, fsSet fs path b)) ∧
    (fsGet fs path = some b →
      write_file_if_unchanged fs path b = (false, fs)) ∧
    fsGet (write_file_if_unchanged fs path b).2 path = some b ∧
    write_file_if_unchanged (write_file_if_unchanged fs path b).2 path b =
      (false, (write_file_if_unchanged fs path b).2) := by
  refine ⟨?_, ?_, ?_, write_file_if_unchanged_get fs path b,
    write_file_if_unchanged_idem fs path b⟩
  · intro h
    simp [write_file_if_unchanged, h]
  · intro e he hne
    simp [write_file_if_unchanged, he, hne]
  · intro h
    simp [write_file_if_unchanged, h]

/-- Witness for C3: a fresh path is written and the repeat call no-ops. -/
theorem write_file_if_unchanged_spec_witness :
    write_file_if_unchanged [] "a.md" [1, 2] = (true, fsSet [] "a.md" [1, 2]) :=
  (write_file_if_unchanged_spec [] "a.md" [1, 2]).1 rfl

/-! ### Claim theorems: asset type codes -/

/-- C7: decoding an asset record maps type code 1 to the Photo variant
and type code 2 to the Audio variant; any other type code fails with
`UnknownAssetTypeError` carrying that code. -/
theorem asset_type_codes (a : SrcAsset) :
    (a.type = 1 → decodeAsset a =
      Except.ok ⟨a.id, .Photo, a.checksum, a.createdAt, a.createdAtOffset,
        ⟨a.metaName, a.metaLastModified, a.metaOrientation, a.metaDuration⟩, none⟩) ∧
    (a.type = 2 → decodeAsset a =
      Except.ok ⟨a.id, .Audio, a.checksum, a.createdAt, a.createdAtOffset,
        ⟨a.metaName, a.metaLastModified, a.metaOrientation, a.metaDuration⟩, none⟩) ∧
    (a.type ≠ 1 → a.type ≠ 2 →
      decodeAsset a = Except.error (.unknownAssetType a.type)) := by
  refine ⟨?_, ?_, ?_⟩
  · intro h
    simp [decodeAsset, DaylioAssetType.value, h]
  · intro h
    simp [decodeAsset, DaylioAssetType.value, h]
  · intro h1 h2
    simp [decodeAsset, DaylioAssetType.value, h1, h2]

/-- Witness for C7: type code 3 is rejected. -/
theorem asset_type_codes_witness :
    decodeAsset ⟨7, 3, "c", 0, 0, "n", 0, none, none⟩ =
      Except.error (.unknownAssetType 3) :=
  (asset_type_codes ⟨7, 3, "c", 0, 0, "n", 0, none, none⟩).2.2
    (by decide) (by decide)

/-! ### Claim theorems: dangling references -/

/-- All of an entry's referenced mood/tag/asset ids are present in the
corresponding id-keyed maps. -/
def entryResolves (moods : IdMap DaylioMood) (tags : IdMap DaylioTag)
    (assets : IdMap DaylioAsset) (e : SrcDayEntry) : Prop :=
  (alookup moods e.mood).isSome = true ∧
  (∀ tid ∈ e.tags, (alookup tags tid).isSome = true) ∧
  (∀ aid ∈ e.assets, (alookup assets aid).isSome = true)

instance (moods : IdMap DaylioMood) (tags : IdMap DaylioTag)
    (assets : IdMap DaylioAsset) (e : SrcDayEntry) :
    Decidable (entryResolves moods tags assets e) := by
  unfold entryResolves
  infer_instance

theorem resolveList_ok_forall {α : Type} (m : IdMap α) (ids : List Int)
    (vs : List α) (h : resolveList m ids = .ok vs) :
    ∀ i ∈ ids, (alookup m i).isSome = true := by
  induction ids generalizing vs with
  | nil => intro i hi; cases hi
  | cons i is ih =>
    intro k hk
    unfold resolveList at h
    cases hl : alookup m i with
    | none => rw [hl] at h; cases h
    | some v =>
      rw [hl] at h
      cases hrest : resolveList m is with
      | error err => rw [hrest] at h; cases h
      | ok vs' =>
        rw [hrest] at h
        rcases List.mem_cons.mp hk with rfl | hk'
        · simp [hl]
        · exact ih vs' hrest k hk'

theorem resolveList_ok_of_forall {α : Type} (m : IdMap α) (ids : List Int)
    (h : ∀ i ∈ ids, (alookup m i).isSome = true) :
    ∃ vs, resolveList m ids = .ok vs := by
  induction ids with
  | nil => exact ⟨[], rfl⟩
  | cons i is ih =>
    have hi := h i (List.mem_cons_self i is)
    cases hl : alookup m i with
    | none => rw [hl] at hi; cases hi
    | some v =>
      obtain ⟨vs, hvs⟩ := ih (fun k hk => h k (List.mem_cons_of_mem i hk))
      exact ⟨v :: vs, by rw [resolveList, hl, hvs]⟩

theorem resolveList_error {α : Type} (m : IdMap α) (ids : List Int)
    (err : DecodeError) (h : resolveList m ids = .error err) :
    err = .danglingReference := by
  induction ids with
  | nil => cases h
  | cons i is ih =>
    unfold resolveList at h
    cases hl : alookup m i with
    | none =>
      rw [hl] at h
      injection h with h
      exact h.symm
    | some v =>
      rw [hl] at h
      cases hrest : resolveList m is with
      | error err' =>
        rw [hrest] at h
        injection h with h
        subst h
        exact ih hrest
      | ok vs => rw [hrest] at h; cases h

theorem decodeEntry_ok_of_resolves {moods : IdMap DaylioMood}
    {tags : IdMap DaylioTag} {assets : IdMap DaylioAsset} (t : Nat)
    (e : SrcDayEntry) (h : entryResolves moods tags assets e) :
    ∃ d, decodeEntry moods tags assets t e = .ok d := by
  obtain ⟨hm, ht, ha⟩ := h
  cases hl : alookup moods e.mood with
  | none => rw [hl] at hm; cases hm
  | some mood =>
    obtain ⟨tgs, htgs⟩ := resolveList_ok_of_forall tags e.tags ht
    obtain ⟨asts, hasts⟩ := resolveList_ok_of_forall assets e.assets ha
    exact ⟨_, by rw [decodeEntry, hl, htgs, hasts]⟩

theorem decodeEntry_resolves_of_ok {moods : IdMap DaylioMood}
    {tags : IdMap DaylioTag} {assets : IdMap DaylioAsset} {t : Nat}
    {e : SrcDayEntry} {d : DayEntry}
    (h : decodeEntry moods tags assets t e = .ok d) :
    entryResolves moods tags assets e := by
  unfold decodeEntry at h
  cases hl : alookup moods e.mood with
  | none => rw [hl] at h; cases h
  | some mood =>
    rw [hl] at h
    cases htgs : resolveList tags e.tags with
    | error err => rw [htgs] at h; cases h
    | ok tgs =>
      rw [htgs] at h
      cases hasts : resolveList assets e.assets with
      | error err => rw [hasts] at h; cases h
      | ok asts =>
        exact ⟨by simp [hl], resolveList_ok_forall tags e.tags tgs htgs,
          resolveList_ok_forall assets e.assets asts hasts⟩

theorem decodeEntry_error {moods : IdMap DaylioMood} {tags : IdMap DaylioTag}
    {assets : IdMap DaylioAsset} {t : Nat} {e : SrcDayEntry}
    {err : DecodeError} (h : decodeEntry moods tags assets t e = .error err) :
    err = .danglingReference := by
  unfold decodeEntry at h
  cases hl : alookup moods e.mood with
  | none =>
    rw [hl] at h
    injection h with h
    exact h.symm
  | some mood =>
    rw [hl] at h
    cases htgs : resolveList tags e.tags with
    | error err' =>
      rw [htgs] at h
      injection h with h
      subst h
      exact resolveList_error _ _ _ htgs
    | ok tgs =>
      rw [htgs] at h
      cases hasts : resolveList assets e.assets with
      | error err' =>
        rw [hasts] at h
        injection h with h
        subst h
        exact resolveList_error _ _ _ hasts
      | ok asts =>
        rw [hasts] at h
        cases h

theorem decodeEntries_resolves_of_ok {moods : IdMap DaylioMood}
    {tags : IdMap DaylioTag} {assets : IdMap DaylioAsset} (seen : List Nat)
    (es : List SrcDayEntry) (ds : List DayEntry)
    (h : decodeEntries moods tags assets seen es = .ok ds) :
    ∀ e ∈ es, entryResolves moods tags assets e := by
  induction es generalizing seen ds with
  | nil => intro e he; cases he
  | cons e rest ih =>
    intro e' he'
    cases hde : decodeEntry moods tags assets (nextFree seen e.datetime) e with
    | error err => rw [decodeEntries, hde] at h; cases h
    | ok de =>
      cases hrest : decodeEntries moods tags assets (nextFree seen e.datetime :: seen) rest with
      | error err => rw [decodeEntries, hde, hrest] at h; cases h
      | ok more =>
        rcases List.mem_cons.mp he' with rfl | hmem
        · exact decodeEntry_resolves_of_ok hde
        · exact ih _ _ hrest e' hmem

theorem decodeEntries_dangling {moods : IdMap DaylioMood}
    {tags : IdMap DaylioTag} {assets : IdMap DaylioAsset} (seen : List Nat)
    (es : List SrcDayEntry)
    (h : ∃ e ∈ es, ¬ entryResolves moods tags assets e) :
    decodeEntries moods tags assets seen es = .error .danglingReference := by
  induction es generalizing seen with
  | nil => obtain ⟨e, he, _⟩ := h; cases he
  | cons e rest ih =>
    by_cases hres : entryResolves moods tags assets e
    · obtain ⟨d, hd⟩ := decodeEntry_ok_of_resolves (nextFree seen e.datetime) e hres
      have hrest' : ∃ e' ∈ rest, ¬ entryResolves moods tags assets e' := by
        obtain ⟨e', he', hne⟩ := h
        rcases List.mem_cons.mp he' with rfl | hmem
        · exact absurd hres hne
        · exact ⟨e', hmem, hne⟩
      rw [decodeEntries, hd, ih _ hrest']
    · cases hde : decodeEntry moods tags assets (nextFree seen e.datetime) e with
      | error err =>
        rw [decodeEntries, hde, decodeEntry_error hde]
      | ok d => exact absurd (decodeEntry_resolves_of_ok hde) hres

/-- C6: when the id-keyed maps have been built, every mood/tag/asset id
referenced by a day entry of a successfully decoded journal resolves in
its map; and if any referenced id is absent from its map, decoding fails
with `DanglingReferenceError`. -/
theorem dangling_reference_check (src : SrcJournal) (A : IdMap DaylioAsset)
    (hA : buildAssets src.assets = Except.ok A) :
    (∀ j, decodeJournal src = Except.ok j → ∀ e ∈ src.dayEntries,
      entryResolves (buildMoods src.customMoods) (buildTags src.tags) A e) ∧
    ((∃ e ∈ src.dayEntries,
        ¬ entryResolves (buildMoods src.customMoods) (buildTags src.tags) A e) →
      decodeJournal src = Except.error DecodeError.danglingReference) := by
  constructor
  · intro j hj e he
    simp only [decodeJournal] at hj
    rw [hA] at hj
    dsimp only at hj
    cases hE : decodeEntries (buildMoods src.customMoods) (buildTags src.tags) A []
        src.dayEntries with
    | error err => rw [hE] at hj; cases hj
    | ok entries =>
      exact decodeEntries_resolves_of_ok [] src.dayEntries entries hE e he
  · intro hex
    simp only [decodeJournal]
    rw [hA]
    dsimp only
    rw [decodeEntries_dangling [] src.dayEntries hex]

/-- A source journal whose single entry references the absent mood id 99. -/
def exSrcDangling : SrcJournal :=
  ⟨15, [], [⟨1, "one", 1, 1⟩], [], [⟨1, 0, 0, 99, "", "", [], []⟩]⟩

/-- Witness for C6: the dangling mood reference makes decoding fail. -/
theorem dangling_reference_check_witness :
    decodeJournal exSrcDangling = Except.error DecodeError.danglingReference :=
  (dangling_reference_check exSrcDangling ([] : IdMap DaylioAsset) rfl).2
    ⟨⟨1, 0, 0, 99, "", "", [], []⟩, by decide, by decide⟩

/-! ### Claim theorems: archive reader -/

/-- C8: `load_asset(checksum)` returns the full decompressed content of
the first archive member whose name ends with the checksum, and fails
with `NotFoundError` when no member name ends with the checksum. -/
theorem load_asset_spec (members : List ZipMember) (checksum : String) :
    ((∀ m ∈ members, strEndsWith m.name checksum = false) →
      load_asset members checksum = Except.error ArchiveError.notFound) ∧
    (∀ i, i < members.length →
      strEndsWith (members.getD i ⟨"", []⟩).name checksum = true →
      (∀ j, j < i → strEndsWith (members.getD j ⟨"", []⟩).name checksum = false) →
      load_asset members checksum =
        Except.ok ⟨checksum, (members.getD i ⟨"", []⟩).data⟩) := by
  constructor
  · intro hall
    have hf : members.find? (fun m => strEndsWith m.name checksum) = none := by
      rw [List.find?_eq_none]
      intro m hm
      simp [hall m hm]
    simp [load_asset, hf]
  · intro i hi hends hbefore
    induction members generalizing i with
    | nil => simp at hi
    | cons m rest ih =>
      cases i with
      | zero =>
        simp only [List.getD_cons_zero] at hends
        simp [load_asset, List.find?, hends]
      | succ i =>
        have hm0 : strEndsWith m.name checksum = false := by
          have := hbefore 0 (Nat.succ_pos i)
          simpa using this
        have hi' : i < rest.length := by simpa using hi
        have hends' : strEndsWith (rest.getD i ⟨"", []⟩).name checksum = true := by
          simpa using hends
        have hbefore' : ∀ j, j < i →
            strEndsWith (rest.getD j ⟨"", []⟩).name checksum = false := by
          intro j hj
          have := hbefore (j + 1) (Nat.succ_lt_succ hj)
          simpa using this
        have := ih i hi' hends' hbefore'
        simp only [load_asset, List.find?, hm0] at this ⊢
        simpa using this

/-- Witness for C8: the second member is the first suffix match. -/
theorem load_asset_spec_witness :
    load_asset [⟨"x/aa", [1]⟩, ⟨"y/bb", [2]⟩, ⟨"z/bb", [3]⟩] "bb" =
      Except.ok ⟨"bb", [2]⟩ :=
  (load_asset_spec [⟨"x/aa", [1]⟩, ⟨"y/bb", [2]⟩, ⟨"z/bb", [3]⟩] "bb").2 1
    (by decide) (by decide)
    (by
      intro j hj
      interval_cases j
      decide)

/-! ### Claim theorems: export driver skip policy -/

/-- C4: the per-entry skip policy is checked in source order with first
match winning: an existing note file without `--overwrite` skips the
entry entirely and counts it as an existing note; otherwise an empty
entry under `--skip-empty` is skipped and counted as empty; otherwise the
entry proceeds to the export path (assets, then the rendered note). -/
theorem skip_policy_order (cfg : ExportConfig) (st : ExportState) (e : DayEntry) :
    ((fsGet st.noteFS (notePath cfg e)).isSome = true → cfg.overwrite = false →
      processEntry cfg st e = Except.ok { st with counters :=
        { st.counters with
          skipped_existing_note := st.counters.skipped_existing_note + 1 } }) ∧
    (((fsGet st.noteFS (notePath cfg e)).isSome && !cfg.overwrite) = false →
      cfg.skip_empty = true → entryEmpty e = true →
      processEntry cfg st e = Except.ok { st with counters :=
        { st.counters with skipped_empty := st.counters.skipped_empty + 1 } }) ∧
    (((fsGet st.noteFS (notePath cfg e)).isSome && !cfg.overwrite) = false →
      (cfg.skip_empty && entryEmpty e) = false →
      processEntry cfg st e = exportEntry cfg st e) := by
  refine ⟨?_, ?_, ?_⟩
  · intro hex hov
    simp [processEntry, hex, hov]
  · intro hg1 hse hemp
    simp [processEntry, hg1, hse, hemp]
  · intro hg1 hg2
    simp [processEntry, hg1, hg2]

/-- A concrete export configuration: empty archive, no flags set. -/
def exCfg : ExportConfig :=
  ⟨[], "md", "img", false, false, fun _ => [], fun _ => ""⟩

/-- A concrete day entry (effective timestamp 5, no note, no assets). -/
def exEntry : DayEntry :=
  ⟨1, 5, 0, ⟨1, "one", 1, 1⟩, "", "", [], []⟩

/-- A concrete driver state whose notes directory already holds the
note path of `exEntry`, with content `[9]`. -/
def exSt : ExportState :=
  ⟨⟨0, 0, 0, 0, 0⟩, [("md/5.md", [9])], []⟩

/-- Witness for C4: the existing-note skip at the concrete state. -/
theorem skip_policy_order_witness :
    processEntry exCfg exSt exEntry = Except.ok { exSt with counters :=
      { exSt.counters with
        skipped_existing_note := exSt.counters.skipped_existing_note + 1 } } :=
  (skip_policy_order exCfg exSt exEntry).1 (by decide) rfl

/-! ### Claim theorems: frame effect of skipped entries -/

/-- C9: a day entry skipped by the driver — because its note file exists
without `--overwrite`, or because it is empty under `--skip-empty` —
causes no asset load and no asset write: the outcome is the same
successful counter bump for every possible archive (so no archive member
is ever consulted), and the resulting state keeps the media directory
`assetFS` (and the notes directory) exactly as they were. -/
theorem skipped_entries_leave_media_untouched (cfg : ExportConfig)
    (st : ExportState) (e : DayEntry) :
    ((fsGet st.noteFS (notePath cfg e)).isSome = true → cfg.overwrite = false →
      ∀ archive2, processEntry { cfg with archive := archive2 } st e =
        Except.ok { st with counters :=
          { st.counters with
            skipped_existing_note := st.counters.skipped_existing_note + 1 } }) ∧
    (((fsGet st.noteFS (notePath cfg e)).isSome && !cfg.overwrite) = false →
      cfg.skip_empty = true → entryEmpty e = true →
      ∀ archive2, processEntry { cfg with archive := archive2 } st e =
        Except.ok { st with counters :=
          { st.counters with skipped_empty := st.counters.skipped_empty + 1 } }) := by
  constructor
  · intro hex hov archive2
    obtain ⟨b, hb⟩ := Option.isSome_iff_exists.mp hex
    simp only [notePath] at hb
    simp [processEntry, notePath, hb, hov]
  · intro hg1 hse hemp archive2
    simp only [notePath] at hg1
    simp [processEntry, notePath, hg1, hse, hemp]

/-- Witness for C9: the existing-note skip of the concrete entry leaves
the state unchanged apart from the counter, for a nonempty archive. -/
theorem skipped_entries_leave_media_untouched_witness :
    processEntry { exCfg with archive := [⟨"zip/backup.daylio", [7]⟩] } exSt exEntry =
      Except.ok { exSt with counters :=
        { exSt.counters with
          skipped_existing_note := exSt.counters.skipped_existing_note + 1 } } :=
  (skipped_entries_leave_media_untouched exCfg exSt exEntry).1 (by decide) rfl
    [⟨"zip/backup.daylio", [7]⟩]

/-! ### Claim theorems: overwrite with identical content -/

/-- C10: when `--overwrite` is requested, an existing note or asset file
whose content is byte-identical to the candidate content is still not
rewritten: `write_file_if_unchanged` returns false leaving the tree
unchanged, and the item is counted under the corresponding
skipped-existing counter rather than the exported counter. -/
theorem overwrite_identical_not_rewritten (cfg : ExportConfig)
    (st : ExportState) (e : DayEntry) (checksum : String)
    (hov : cfg.overwrite = true) :
    (fsGet st.noteFS (notePath cfg e) = some (cfg.render e) →
      write_file_if_unchanged st.noteFS (notePath cfg e) (cfg.render e) =
        (false, st.noteFS) ∧
      writeNote cfg st e = { st with counters :=
        { st.counters with
          skipped_existing_note := st.counters.skipped_existing_note + 1 } }) ∧
    (∀ file, load_asset cfg.archive checksum = Except.ok file →
      fsGet st.assetFS (cfg.images ++ "/" ++ assetFilename cfg file) =
        some file.data →
      processAsset cfg st checksum = Except.ok { st with counters :=
        { st.counters with
          skipped_existing_asset := st.counters.skipped_existing_asset + 1 } }) := by
  constructor
  · intro hsame
    have hw : write_file_if_unchanged st.noteFS (notePath cfg e) (cfg.render e) =
        (false, st.noteFS) := by
      simp [write_file_if_unchanged, hsame]
    refine ⟨hw, ?_⟩
    simp [writeNote, hw]
  · intro file hfile hsame
    have hw : write_file_if_unchanged st.assetFS
        (cfg.images ++ "/" ++ assetFilename cfg file) file.data =
        (false, st.assetFS) := by
      simp [write_file_if_unchanged, hsame]
    simp [processAsset, hfile, hov, hw]

/-- The concrete configuration with `--overwrite` set. -/
def exCfgOv : ExportConfig :=
  ⟨[], "md", "img", true, false, fun _ => [], fun _ => ""⟩

/-- A concrete state whose existing note content equals the rendered
candidate content (both empty). -/
def exStOv : ExportState :=
  ⟨⟨0, 0, 0, 0, 0⟩, [("md/5.md", [])], []⟩

/-- Witness for C10: the identical note is not rewritten and counts as a
skipped existing note. -/
theorem overwrite_identical_not_rewritten_witness :
    write_file_if_unchanged exStOv.noteFS (notePath exCfgOv exEntry)
        (exCfgOv.render exEntry) = (false, exStOv.noteFS) ∧
    writeNote exCfgOv exStOv exEntry = { exStOv with counters :=
      { exStOv.counters with
        skipped_existing_note := exStOv.counters.skipped_existing_note + 1 } } :=
  (overwrite_identical_not_rewritten exCfgOv exStOv exEntry "c" rfl).1 rfl

/-! ### Claim theorems: the two "already present" outcomes -/

/-- The summary state of a run that skips the entry because its note
path already exists and `--overwrite` is off (content `[9]` differs from
the candidate, so this is the existing-by-path outcome). -/
def outByPath : ExportState :=
  match runExport exCfg exSt [exEntry] with
  | .ok st => st
  | .error _ => exSt

/-- The summary state of a run with `--overwrite` whose existing note
content is byte-identical to the candidate (the
existing-with-identical-content outcome). -/
def outIdentical : ExportState :=
  match runExport exCfgOv exStOv [exEntry] with
  | .ok st => st
  | .error _ => exStOv

/-- Counterexample to C5: the two distinct "already present" outcomes do
NOT get separate counters.  One run skips the concrete entry because its
note path exists without `--overwrite`; the other runs with
`--overwrite` and finds byte-identical content; the two runs end with
byte-identical summary counter records (`skipped_existing_note = 1`,
everything else 0), so the export summary cannot distinguish the two
outcomes — `main` increments the same `skipped_existing_note`
(respectively `skipped_existing_asset`) counter in both cases. -/
theorem separate_counters_counterexample :
    runExport exCfg exSt [exEntry] = Except.ok outByPath ∧
    runExport exCfgOv exStOv [exEntry] = Except.ok outIdentical ∧
    outByPath.counters = outIdentical.counters ∧
    outByPath.counters.skipped_existing_note = 1 ∧
    outIdentical.counters.skipped_existing_note = 1 ∧
    outByPath.counters.exported_note = 0 ∧
    outIdentical.counters.exported_note = 0 :=
  ⟨rfl, rfl, rfl, rfl, rfl, rfl, rfl⟩

/-- C5 (amended): the two "already present" outcomes — skipped because
the file exists by path without `--overwrite`, and skipped because the
existing content is byte-identical — are distinguished only in verbose
log messages; in the summary both increment the same counter per file
kind: `skipped_existing_note` for notes and `skipped_existing_asset` for
assets, and neither increments the exported counters. -/
theorem existing_outcomes_share_counter (cfg : ExportConfig)
    (st : ExportState) (e : DayEntry) (checksum : String) :
    ((fsGet st.noteFS (notePath cfg e)).isSome = true → cfg.overwrite = false →
      ∃ st2, processEntry cfg st e = Except.ok st2 ∧
        st2.counters.skipped_existing_note =
          st.counters.skipped_existing_note + 1 ∧
        st2.counters.exported_note = st.counters.exported_note) ∧
    (fsGet st.noteFS (notePath cfg e) = some (cfg.render e) →
      (writeNote cfg st e).counters.skipped_existing_note =
        st.counters.skipped_existing_note + 1 ∧
      (writeNote cfg st e).counters.exported_note =
        st.counters.exported_note) ∧
    (∀ file, load_asset cfg.archive checksum = Except.ok file →
      (fsGet st.assetFS (cfg.images ++ "/" ++ assetFilename cfg file)).isSome = true →
      cfg.overwrite = false →
      ∃ st2, processAsset cfg st checksum = Except.ok st2 ∧
        st2.counters.skipped_existing_asset =
          st.counters.skipped_existing_asset + 1 ∧
        st2.counters.exported_asset = st.counters.exported_asset) ∧
    (∀ file, load_asset cfg.archive checksum = Except.ok file →
      fsGet st.assetFS (cfg.images ++ "/" ++ assetFilename cfg file) =
        some file.data →
      ∃ st2, processAsset cfg st checksum = Except.ok st2 ∧
        st2.counters.skipped_existing_asset =
          st.counters.skipped_existing_asset + 1 ∧
        st2.counters.exported_asset = st.counters.exported_asset) := by
  refine ⟨?_, ?_, ?_, ?_⟩
  · intro hex hov
    obtain ⟨b, hb⟩ := Option.isSome_iff_exists.mp hex
    refine ⟨{ st with counters := { st.counters with
      skipped_existing_note := st.counters.skipped_existing_note + 1 } },
      ?_, rfl, rfl⟩
    simp [processEntry, hb, hov]
  · intro hsame
    have hw : write_file_if_unchanged st.noteFS (notePath cfg e) (cfg.render e) =
        (false, st.noteFS) := by
      simp [write_file_if_unchanged, hsame]
    simp [writeNote, hw]
  · intro file hfile hex hov
    obtain ⟨b, hb⟩ := Option.isSome_iff_exists.mp hex
    refine ⟨{ st with counters := { st.counters with
      skipped_existing_asset := st.counters.skipped_existing_asset + 1 } },
      ?_, rfl, rfl⟩
    simp [processAsset, hfile, hb, hov]
  · intro file hfile hsame
    have hw : write_file_if_unchanged st.assetFS
        (cfg.images ++ "/" ++ assetFilename cfg file) file.data =
        (false, st.assetFS) := by
      simp [write_file_if_unchanged, hsame]
    by_cases hov : cfg.overwrite
    · refine ⟨{ st with counters := { st.counters with
        skipped_existing_asset := st.counters.skipped_existing_asset + 1 } },
        ?_, rfl, rfl⟩
      simp [processAsset, hfile, hov, hw]
    · refine ⟨{ st with counters := { st.counters with
        skipped_existing_asset := st.counters.skipped_existing_asset + 1 } },
        ?_, rfl, rfl⟩
      simp [processAsset, hfile, hsame, hov]

/-- Witness for the amended C5: the identical-content note write at the
concrete overwrite configuration bumps `skipped_existing_note`. -/
theorem existing_outcomes_share_counter_witness :
    (writeNote exCfgOv exStOv exEntry).counters.skipped_existing_note =
      exStOv.counters.skipped_existing_note + 1 ∧
    (writeNote exCfgOv exStOv exEntry).counters.exported_note =
      exStOv.counters.exported_note :=
  (existing_outcomes_share_counter exCfgOv exStOv exEntry "c").2.1 rfl
